import Mathlib

/-!
Verification development for the summary-statistics core of the
ndarray-stats repository.  The sources contain the extension-trait
declaration `SummaryStatisticsExt` (src/summary_statistics/mod.rs) with the
contracts of `mean`, `harmonic_mean`, `geometric_mean`, `central_moment`,
`central_moments`, `skewness` and `kurtosis`; the implementing module
(`mod means;`) and the `errors` module are not among the sources, so the
operations below are modelled from the specification.  The sample is a
finite ordered collection of scalars, embedded as `List ℝ`; fallible
operations return `Except EmptyInput _` for Result<_, EmptyInput>.
-/

/-- Modelled from the spec: the `errors` module defining `EmptyInput` is
absent from the sources.  The spec describes `EmptyInput` as the single
recoverable, caller-visible error: the collection has zero elements. -/
structure EmptyInput : Type where
deriving DecidableEq

/-- Returns `true` exactly when a result is the `EmptyInput` error. -/
def isEmptyInputErr {α : Type} : Except EmptyInput α → Bool
  | .error _ => true
  | .ok _ => false

/-- Modelled from the spec: the mean as a value, `(Σ xᵢ) / n`, computed as
a single accumulating reduction in one pass over the collection, with the
element count converted to the scalar type (the implementing module
`means.rs` is absent from the sources). -/
noncomputable def meanVal (l : List ℝ) : ℝ :=
  (l.foldl (fun acc x => acc + x) 0) / (l.length : ℝ)

/-- Modelled from the spec: `mean(sample) -> Result<Scalar, EmptyInput>`;
if n = 0 it fails with `EmptyInput`, else it returns `(Σ xᵢ) / n`
(the implementing module `means.rs` is absent from the sources). -/
noncomputable def mean (l : List ℝ) : Except EmptyInput ℝ :=
  if l.length = 0 then .error ⟨⟩ else .ok (meanVal l)

/-- Modelled from the spec: the harmonic mean, implemented as the
reciprocal of the mean of the reciprocals of all elements, reusing `mean`
(the implementing module `means.rs` is absent from the sources). -/
noncomputable def harmonicMean (l : List ℝ) : Except EmptyInput ℝ :=
  match mean (l.map (fun x => x⁻¹)) with
  | .error e => .error e
  | .ok m => .ok m⁻¹

/-- Modelled from the spec: the geometric mean, `exp(mean(ln(xᵢ)))` — one
reduction pass over the log-transformed elements reusing `mean`, then
exponentiation (the implementing module `means.rs` is absent from the
sources). -/
noncomputable def geometricMean (l : List ℝ) : Except EmptyInput ℝ :=
  match mean (l.map Real.log) with
  | .error e => .error e
  | .ok m => .ok (Real.exp m)

/-- Modelled from the spec: the value of the order-p central moment.
Order 0 is 1 by convention, order 1 is 0 by convention (not computed via
the recurrence); for p ≥ 2 the engine produces the average of the p-th
power of the deviations from the mean, each accumulated order sum being
divided by n at the end (the implementing module `means.rs` is absent
from the sources). -/
noncomputable def centralMomentVal (l : List ℝ) : ℕ → ℝ
  | 0 => 1
  | 1 => 0
  | p + 2 => ((l.map (fun x => (x - meanVal l) ^ (p + 2))).sum) / (l.length : ℝ)

/-- Modelled from the spec:
`central_moment(sample, order p) -> Result<Scalar, EmptyInput>`; fails
with `EmptyInput` iff n = 0, else yields the order-p central moment
(the implementing module `means.rs` is absent from the sources). -/
noncomputable def central_moment (l : List ℝ) (order : ℕ) : Except EmptyInput ℝ :=
  if l.length = 0 then .error ⟨⟩ else .ok (centralMomentVal l order)

/-- Modelled from the spec: the ordered sequence of p scalars returned by
the batch computation — orders 1..p, index 0 = order 1 = 0 by definition,
index k ≥ 1 holding the order-(k+1) central moment obtained by dividing
the accumulated order sum by n (the implementing module `means.rs` is
absent from the sources). -/
noncomputable def centralMomentsVal (l : List ℝ) (p : ℕ) : List ℝ :=
  (List.range p).map (fun k =>
    if k = 0 then 0
    else ((l.map (fun x => (x - meanVal l) ^ (k + 1))).sum) / (l.length : ℝ))

/-- Modelled from the spec:
`central_moments(sample, order p) -> Result<Sequence<Scalar>, EmptyInput>`,
all orders 1..p from one traversal; fails with `EmptyInput` iff n = 0
(the implementing module `means.rs` is absent from the sources). -/
noncomputable def central_moments (l : List ℝ) (p : ℕ) : Except EmptyInput (List ℝ) :=
  if l.length = 0 then .error ⟨⟩ else .ok (centralMomentsVal l p)

/-- Modelled from the spec: skewness γ₁ = μ₃ / σ³ with σ = sqrt(μ₂),
computed via one call to `central_moments(sample, 3)`, taking μ₂ and μ₃
from that same traversal (index 1 = order 2, index 2 = order 3 of the
returned sequence); the implementing module `means.rs` is absent from the
sources. -/
noncomputable def skewness (l : List ℝ) : Except EmptyInput ℝ :=
  match central_moments l 3 with
  | .error e => .error e
  | .ok cm => .ok (cm.getD 2 0 / (Real.sqrt (cm.getD 1 0)) ^ 3)

/-- Modelled from the spec: kurtosis Kurt[X] = μ₄ / σ⁴ with σ = sqrt(μ₂)
(Pearson form, no subtraction of 3), computed via one call to
`central_moments(sample, 4)`, reusing μ₂ and μ₄ from that single
traversal (index 1 = order 2, index 3 = order 4 of the returned
sequence); the implementing module `means.rs` is absent from the
sources. -/
noncomputable def kurtosis (l : List ℝ) : Except EmptyInput ℝ :=
  match central_moments l 4 with
  | .error e => .error e
  | .ok cm => .ok (cm.getD 3 0 / (Real.sqrt (cm.getD 1 0)) ^ 4)

/-- Modelled from the spec: conversion of a public-interface order value
to the internal 32-bit signed order counter, which the contract documents
as panicking when the order overflows `i32`; the conversion succeeds
exactly when the value fits in the nonnegative range of a 32-bit signed
integer (the implementing module `means.rs` is absent from the
sources). -/
def orderToI32 (o : ℕ) : Option ℤ :=
  if o ≤ 2 ^ 31 - 1 then some (o : ℤ) else none

/-! Helper lemmas shared by the claim theorems. -/

lemma foldl_add_eq_sum (l : List ℝ) (a : ℝ) :
    l.foldl (fun acc x => acc + x) a = a + l.sum := by
  induction l generalizing a with
  | nil => simp
  | cons x xs ih => simp [List.foldl_cons, ih (a + x)]; ring

lemma meanVal_eq_sum_div (l : List ℝ) :
    meanVal l = l.sum / (l.length : ℝ) := by
  simp [meanVal, foldl_add_eq_sum]

lemma map_sub_sum (l : List ℝ) (c : ℝ) :
    (l.map (fun x => x - c)).sum = l.sum - (l.length : ℝ) * c := by
  induction l with
  | nil => simp
  | cons x xs ih => simp [ih]; ring

lemma sum_dev_eq_zero (l : List ℝ) (h : l.length ≠ 0) :
    (l.map (fun x => x - meanVal l)).sum = 0 := by
  have hn : (l.length : ℝ) ≠ 0 := Nat.cast_ne_zero.mpr h
  rw [map_sub_sum, meanVal_eq_sum_div, mul_div_cancel₀ _ hn, sub_self]

lemma centralMomentVal_formula (l : List ℝ) (h : l.length ≠ 0) (p : ℕ) :
    centralMomentVal l p
      = ((l.map (fun x => (x - meanVal l) ^ p)).sum) / (l.length : ℝ) := by
  have hn : (l.length : ℝ) ≠ 0 := Nat.cast_ne_zero.mpr h
  match p with
  | 0 =>
      simp [centralMomentVal, div_self hn]
  | 1 =>
      simp only [centralMomentVal, pow_one]
      rw [sum_dev_eq_zero l h, zero_div]
  | p + 2 =>
      rfl

lemma centralMomentsVal_getD (l : List ℝ) (p k : ℕ) (hk : k < p) :
    (centralMomentsVal l p).getD k 0 = centralMomentVal l (k + 1) := by
  have hlen : (centralMomentsVal l p).length = p := by
    simp [centralMomentsVal]
  rw [List.getD_eq_getElem _ _ (by rw [hlen]; exact hk)]
  simp only [centralMomentsVal, List.getElem_map, List.getElem_range]
  match k with
  | 0 => simp [centralMomentVal]
  | k + 1 => simp [centralMomentVal]

lemma centralMomentVal_two_nonneg (l : List ℝ) :
    0 ≤ centralMomentVal l 2 := by
  have hsum : 0 ≤ (l.map (fun x => (x - meanVal l) ^ 2)).sum := by
    apply List.sum_nonneg
    intro y hy
    rcases List.mem_map.mp hy with ⟨x, _, rfl⟩
    positivity
  have : centralMomentVal l 2
      = ((l.map (fun x => (x - meanVal l) ^ 2)).sum) / (l.length : ℝ) := rfl
  rw [this]
  positivity

/-! Claim theorems. -/

/-- C1: for every collection with zero elements each of the seven
operations mean, harmonic_mean, geometric_mean, central_moment,
central_moments, skewness and kurtosis returns Err(EmptyInput); for every
collection with at least one element none of them returns EmptyInput. -/
theorem c1_emptyInput_iff_empty (l : List ℝ) (p : ℕ) :
    isEmptyInputErr (mean l) = (l.length == 0) ∧
    isEmptyInputErr (harmonicMean l) = (l.length == 0) ∧
    isEmptyInputErr (geometricMean l) = (l.length == 0) ∧
    isEmptyInputErr (central_moment l p) = (l.length == 0) ∧
    isEmptyInputErr (central_moments l p) = (l.length == 0) ∧
    isEmptyInputErr (skewness l) = (l.length == 0) ∧
    isEmptyInputErr (kurtosis l) = (l.length == 0) := by
  by_cases h : l.length = 0 <;>
    simp [mean, harmonicMean, geometricMean, central_moment, central_moments,
          skewness, kurtosis, isEmptyInputErr, h]

/-- C2: for every non-empty collection of n elements, mean returns Ok of
the sum of all elements (one accumulating pass) divided by the element
count converted to the scalar type. -/
theorem c2_mean_formula (l : List ℝ) (h : l ≠ []) :
    mean l = .ok (l.sum / (l.length : ℝ)) := by
  have hl : l.length ≠ 0 := fun hh => h (List.length_eq_zero.mp hh)
  simp [mean, hl, meanVal_eq_sum_div]

/-- Witness for C2 at the concrete sample [1, 2, 3, 4]. -/
theorem c2_mean_formula_witness :
    mean [1, 2, 3, 4]
      = .ok (([1, 2, 3, 4] : List ℝ).sum / ((([1, 2, 3, 4] : List ℝ).length) : ℝ)) :=
  c2_mean_formula [1, 2, 3, 4] (by simp)

/-- C3: for every non-empty collection of n elements with arithmetic mean
x̅ and every order p, central_moment returns Ok of (1/n)·Σ (xᵢ − x̅)^p,
the accumulated order sum divided by n at the end. -/
theorem c3_central_moment_formula (l : List ℝ) (h : l ≠ []) (p : ℕ) :
    central_moment l p
      = .ok (((l.map (fun x => (x - meanVal l) ^ p)).sum) / (l.length : ℝ)) := by
  have hl : l.length ≠ 0 := fun hh => h (List.length_eq_zero.mp hh)
  simp [central_moment, hl, centralMomentVal_formula l hl p]

/-- Witness for C3 at the concrete sample [1, 2, 3, 4] and order 2. -/
theorem c3_central_moment_formula_witness :
    central_moment [1, 2, 3, 4] 2
      = .ok (((([1, 2, 3, 4] : List ℝ).map
          (fun x => (x - meanVal [1, 2, 3, 4]) ^ 2)).sum)
            / ((([1, 2, 3, 4] : List ℝ).length) : ℝ)) :=
  c3_central_moment_formula [1, 2, 3, 4] (by simp) 2

/-- C4: for every collection with n > 0 elements, central_moment with
order 0 returns exactly 1 and central_moment with order 1 returns exactly
0, by convention. -/
theorem c4_central_moment_conventions (l : List ℝ) (h : l ≠ []) :
    central_moment l 0 = .ok 1 ∧ central_moment l 1 = .ok 0 := by
  have hl : l.length ≠ 0 := fun hh => h (List.length_eq_zero.mp hh)
  constructor <;> simp [central_moment, hl, centralMomentVal]

/-- Witness for C4 at the concrete sample [5]. -/
theorem c4_central_moment_conventions_witness :
    central_moment [(5 : ℝ)] 0 = .ok 1 ∧ central_moment [(5 : ℝ)] 1 = .ok 0 :=
  c4_central_moment_conventions [(5 : ℝ)] (by simp)

/-- C5: for every non-empty sample and orders p, k with 1 ≤ k+1 ≤ p, the
sequence returned by central_moments(sample, p) satisfies
central_moments(sample, p)[k] = central_moment(sample, k+1): index 0 of
the batch result holds the order-1 moment, and batch and single-order
computations agree. -/
theorem c5_batch_single_agree (l : List ℝ) (h : l ≠ []) (p k : ℕ)
    (hk : k + 1 ≤ p) :
    central_moments l p = .ok (centralMomentsVal l p) ∧
    central_moment l (k + 1) = .ok (centralMomentVal l (k + 1)) ∧
    (centralMomentsVal l p).getD k 0 = centralMomentVal l (k + 1) := by
  have hl : l.length ≠ 0 := fun hh => h (List.length_eq_zero.mp hh)
  refine ⟨by simp [central_moments, hl], by simp [central_moment, hl], ?_⟩
  exact centralMomentsVal_getD l p k (Nat.lt_of_succ_le hk)

/-- Witness for C5 at the concrete sample [1, 2], p = 3, k = 1. -/
theorem c5_batch_single_agree_witness :
    central_moments [1, 2] 3 = .ok (centralMomentsVal [1, 2] 3) ∧
    central_moment [1, 2] 2 = .ok (centralMomentVal [1, 2] 2) ∧
    (centralMomentsVal [(1 : ℝ), 2] 3).getD 1 0 = centralMomentVal [(1 : ℝ), 2] 2 :=
  c5_batch_single_agree [1, 2] (by simp) 3 1 (by decide)

lemma log_list_prod (l : List ℝ) (h : ∀ x ∈ l, 0 < x) :
    Real.log l.prod = (l.map Real.log).sum := by
  induction l with
  | nil => simp
  | cons x xs ih =>
      have hx : x ≠ 0 := (h x (by simp)).ne'
      have hxs : xs.prod ≠ 0 :=
        (List.prod_pos (fun y hy => h y (by simp [hy]))).ne'
      simp [Real.log_mul hx hxs, ih (fun y hy => h y (by simp [hy]))]

/-- C6: for every non-empty collection of n elements, harmonic_mean
returns Ok of n / Σ(1/xᵢ), the reciprocal of the mean of the
reciprocals; a zero-valued element is not an error — the result is still
Ok, with division following the scalar field semantics. -/
theorem c6_harmonic_mean_formula (l : List ℝ) (h : l ≠ []) :
    harmonicMean l = .ok ((l.length : ℝ) / (l.map (fun x => x⁻¹)).sum) := by
  have hl : l.length ≠ 0 := fun hh => h (List.length_eq_zero.mp hh)
  simp [harmonicMean, mean, hl, meanVal_eq_sum_div, inv_div]

/-- Witness for C6 at the concrete sample [1, 2]. -/
theorem c6_harmonic_mean_formula_witness :
    harmonicMean [1, 2]
      = .ok (((([1, 2] : List ℝ).length) : ℝ)
          / (([1, 2] : List ℝ).map (fun x => x⁻¹)).sum) :=
  c6_harmonic_mean_formula [1, 2] (by simp)

/-- C7: for every non-empty collection, geometric_mean returns Ok of
exp(mean(ln(xᵢ))) — the mean of the logarithms, exponentiated — and for
positive elements this equals the n-th root of the product of all
elements. -/
theorem c7_geometric_mean_formula (l : List ℝ) (h : l ≠ []) :
    geometricMean l
      = .ok (Real.exp ((l.map Real.log).sum / (l.length : ℝ))) ∧
    ((∀ x ∈ l, 0 < x) →
      geometricMean l = .ok (l.prod ^ ((l.length : ℝ))⁻¹)) := by
  have hl : l.length ≠ 0 := fun hh => h (List.length_eq_zero.mp hh)
  have hmain : geometricMean l
      = .ok (Real.exp ((l.map Real.log).sum / (l.length : ℝ))) := by
    simp [geometricMean, mean, hl, meanVal_eq_sum_div]
  refine ⟨hmain, fun hpos => ?_⟩
  have hprod : 0 < l.prod := List.prod_pos hpos
  rw [hmain, Real.rpow_def_of_pos hprod, log_list_prod l hpos,
    div_eq_mul_inv]

/-- Witness for C7 at the concrete sample [1]: the geometric mean is the
1-st root of the product. -/
theorem c7_geometric_mean_formula_witness :
    geometricMean [1]
      = .ok (([1] : List ℝ).prod ^ (((([1] : List ℝ).length) : ℝ))⁻¹) :=
  (c7_geometric_mean_formula [1] (by simp)).2 (by norm_num)

/-- C8: for every non-empty collection, skewness returns Ok of μ₃ / σ³
where σ = sqrt(μ₂), with μ₂ and μ₃ the order-2 and order-3 central
moments of the sample; a constant sample (μ₂ = 0) still yields an Ok
result, never an error. -/
theorem c8_skewness_formula (l : List ℝ) (h : l ≠ []) :
    skewness l
      = .ok (centralMomentVal l 3 / (Real.sqrt (centralMomentVal l 2)) ^ 3) := by
  have hl : l.length ≠ 0 := fun hh => h (List.length_eq_zero.mp hh)
  have hcm : central_moments l 3 = .ok (centralMomentsVal l 3) := by
    simp [central_moments, hl]
  simp only [skewness, hcm]
  rw [centralMomentsVal_getD l 3 2 (by norm_num),
    centralMomentsVal_getD l 3 1 (by norm_num)]

/-- Witness for C8 at the concrete sample [1, 2, 3]. -/
theorem c8_skewness_formula_witness :
    skewness [1, 2, 3]
      = .ok (centralMomentVal [1, 2, 3] 3
          / (Real.sqrt (centralMomentVal [1, 2, 3] 2)) ^ 3) :=
  c8_skewness_formula [1, 2, 3] (by simp)

/-- C9: for every non-empty collection, kurtosis returns Ok of μ₄ / σ⁴
where σ = sqrt(μ₂) — Pearson form, with no subtraction of 3 — and since
μ₂ is nonnegative, σ⁴ equals μ₂². -/
theorem c9_kurtosis_formula (l : List ℝ) (h : l ≠ []) :
    kurtosis l
      = .ok (centralMomentVal l 4 / (Real.sqrt (centralMomentVal l 2)) ^ 4) ∧
    (Real.sqrt (centralMomentVal l 2)) ^ 4 = (centralMomentVal l 2) ^ 2 := by
  have hl : l.length ≠ 0 := fun hh => h (List.length_eq_zero.mp hh)
  have hcm : central_moments l 4 = .ok (centralMomentsVal l 4) := by
    simp [central_moments, hl]
  constructor
  · simp only [kurtosis, hcm]
    rw [centralMomentsVal_getD l 4 3 (by norm_num),
      centralMomentsVal_getD l 4 1 (by norm_num)]
  · have h2 : 0 ≤ centralMomentVal l 2 := centralMomentVal_two_nonneg l
    have : (Real.sqrt (centralMomentVal l 2)) ^ 4
        = ((Real.sqrt (centralMomentVal l 2)) ^ 2) ^ 2 := by ring
    rw [this, Real.sq_sqrt h2]

/-- Witness for C9 at the concrete sample [1, 2]. -/
theorem c9_kurtosis_formula_witness :
    kurtosis [1, 2]
      = .ok (centralMomentVal [1, 2] 4
          / (Real.sqrt (centralMomentVal [1, 2] 2)) ^ 4) ∧
    (Real.sqrt (centralMomentVal [(1 : ℝ), 2] 2)) ^ 4
      = (centralMomentVal [(1 : ℝ), 2] 2) ^ 2 :=
  c9_kurtosis_formula [1, 2] (by simp)

/-- C10: every order value accepted at the public interface is a 16-bit
unsigned integer, and every such value fits the internal 32-bit signed
order counter, so the conversion always succeeds and the documented
overflow panic branch is unreachable. -/
theorem c10_order_conversion_total (o : ℕ) (h : o < 2 ^ 16) :
    orderToI32 o = some (o : ℤ) := by
  simp only [orderToI32, if_pos (show o ≤ 2 ^ 31 - 1 by omega)]

/-- Witness for C10 at the largest 16-bit order value, 65535. -/
theorem c10_order_conversion_total_witness :
    65535 < 2 ^ 16 ∧ orderToI32 65535 = some (65535 : ℤ) :=
  ⟨by decide, c10_order_conversion_total 65535 (by decide)⟩
